import Mathlib

/-!
Shallow embedding of the magnetron CPU compute backend
(src/magnetron/magnetron_cpu.c) and proofs about its behaviour.

Modelling conventions:
* Machine integers (`uint32_t`, `int64_t`, `size_t`, `uintptr_t`) become
  `Nat`/`Int`; where the C code performs modular pointer arithmetic we write
  the reduction `% 2 ^ 64` explicitly.
* The `double` computation `ceil(growth_scale * log2 m)` with
  `growth_scale = 0.3` is modelled in exact real arithmetic through its
  integral characterisation: for `m ≥ 1` the value `⌈(3/10)·log₂ m⌉` is the
  least natural `k` with `m ^ 3 ≤ 2 ^ (10 * k)`.
* Fallible paths (assertion aborts, undefined behaviour such as converting a
  non-finite `double` to `uint32_t`) are modelled with `Option`: `none` means
  the C execution aborts or has no defined result.
* Mutex-protected critical sections of the thread pool become atomic state
  transformers on an explicit pool state; a kickoff/barrier cycle is the fold
  of the per-worker transformers over an interleaving order.
-/

/-- Operator node (`mag_tensor_t`): opaque to the backend except for its
operator kind tag and its element count (`numel`, an `int64_t`). -/
structure Tensor where
  op : Nat
  numel : Int

/-- Compute payload (`mag_compute_payload_t`): the node to execute (cleared
after execution), the worker's thread index and the active thread count. -/
structure ComputePayload where
  node : Option Tensor
  thread_idx : Nat
  thread_num : Nat

/-- Worker state (`mag_worker_t`): local phase counter, payload, async flag.
The back-reference to the pool and the OS thread handle are elided. -/
structure WorkerState where
  phase : Nat
  payload : ComputePayload
  is_async : Bool

/-- Thread-pool state (`mag_threadpool_t`): the fields protected by the pool
mutex, plus the worker array.  The condition variable, interrupt flag and
online-count atomic (used only by create/destroy handshakes) are elided. -/
structure ThreadpoolState where
  phase : Nat
  num_completed : Nat
  num_allocated_workers : Nat
  num_active_workers : Nat
  workers : List WorkerState

/-- CPU device (`mag_cpu_device_t`): whether a pool exists, the allocated
worker count, and the dynamic-scaling threshold.  `growth_scale` is fixed at
its initialised value 0.3 and is baked into `ceil_growth_log2`. -/
structure CpuDevice where
  hasPool : Bool
  num_allocated_workers : Nat
  numel_threshold : Int

/-- For every natural `m` there is a `k` with `m ^ 3 ≤ 2 ^ (10 * k)`
(take `k = m`). -/
theorem cube_le_two_pow_ten_mul (m : Nat) : ∃ k, m ^ 3 ≤ 2 ^ (10 * k) := by
  refine ⟨m, ?_⟩
  calc m ^ 3 ≤ (2 ^ m) ^ 3 := Nat.pow_le_pow_left (Nat.le_of_lt (Nat.lt_two_pow m)) 3
  _ = 2 ^ (m * 3) := (pow_mul 2 m 3).symm
  _ ≤ 2 ^ (10 * m) := Nat.pow_le_pow_right (by norm_num) (by omega)

/-- Exact-real model of the C expression `(uint32_t)ceil(0.3 * log2 m)` for
`m ≥ 1` (used inside `mag_cpu_dynamic_work_scaling`): the least `k` with
`m ^ 3 ≤ 2 ^ (10 * k)`, which equals `⌈(3/10)·log₂ m⌉` since that value is
nonnegative.  Double rounding of the C computation is modelled as exact. -/
def ceil_growth_log2 (m : Nat) : Nat :=
  Nat.find (cube_le_two_pow_ten_mul m)

/-- Dynamic width heuristic (`mag_cpu_dynamic_work_scaling`).  Returns
`some 1` when no pool exists or `numel` is below the threshold.  Otherwise the
code computes `ceil(growth_scale * log2 (numel - threshold))` and clamps it to
`[1, num_allocated_workers]`.  When `numel` equals the threshold the log
argument is `0`: `log2(0)` is `-inf` and the conversion of the non-finite
`ceil` result to `uint32_t` is undefined behaviour in C, modelled as `none`.
There is no guard in the source. -/
def mag_cpu_dynamic_work_scaling (dvc : CpuDevice) (numel : Int) : Option Nat :=
  if !dvc.hasPool || numel < dvc.numel_threshold then some 1
  else
    let m : Int := numel - dvc.numel_threshold
    if m = 0 then none
    else some (min dvc.num_allocated_workers (max 1 (ceil_growth_log2 m.toNat)))

/-- Width of the address space of `size_t`/`uintptr_t` on the 64-bit targets
the backend is built for; pointer additions reduce modulo this. -/
def ptrWidth : Nat := 2 ^ 64

/-- Storage buffer contents (`mag_storage_buffer_t` data part): the base
address of the aligned block and the byte contents (`data.length` is the
`size` field). -/
structure StorageBuffer where
  base : Nat
  data : List Nat

/-- Storage fill (`mag_cpu_buf_set`).  The source asserts
`sto->base + offs <= sto->base + sto->size` (modular `uintptr_t` arithmetic),
then runs `memset(base + offs, x, size - offs)`: the fill length is
`size - offs`, never a caller-supplied count.  `none` models the assertion
abort, or the undefined wild `memset` when the modular assertion passes while
`offs > size`. -/
def mag_cpu_buf_set (sto : StorageBuffer) (offs : Nat) (x : Nat) :
    Option StorageBuffer :=
  if (sto.base + offs) % ptrWidth ≤ (sto.base + sto.data.length) % ptrWidth then
    if offs ≤ sto.data.length then
      some { sto with
        data := sto.data.take offs ++ List.replicate (sto.data.length - offs) x }
    else none
  else none

/-- Host-to-device copy (`mag_cpu_buf_cpy_host_device`).  The source asserts
`sto->base + offs + n <= sto->base + sto->size`, then runs
`memcpy(base + offs, src, n)`.  `none` models the assertion abort, or the
undefined copy when the bytes `[offs, offs + n)` or the `n` source bytes do
not all exist. -/
def mag_cpu_buf_cpy_host_device (sto : StorageBuffer) (offs : Nat)
    (src : List Nat) (n : Nat) : Option StorageBuffer :=
  if (sto.base + offs + n) % ptrWidth ≤ (sto.base + sto.data.length) % ptrWidth then
    if offs + n ≤ sto.data.length ∧ n ≤ src.length then
      some { sto with
        data := sto.data.take offs ++ src.take n ++ sto.data.drop (offs + n) }
    else none
  else none

/-- Device-to-host copy (`mag_cpu_buf_cpy_device_host`).  The source asserts
`sto->base + offs + n <= sto->base + sto->size`, then runs
`memcpy(dst, base + offs, n)`; the result is the `n` bytes written to `dst`. -/
def mag_cpu_buf_cpy_device_host (sto : StorageBuffer) (offs : Nat) (n : Nat) :
    Option (List Nat) :=
  if (sto.base + offs + n) % ptrWidth ≤ (sto.base + sto.data.length) % ptrWidth then
    if offs + n ≤ sto.data.length then
      some ((sto.data.drop offs).take n)
    else none
  else none

/-- Storage buffer descriptor as filled in by `mag_cpu_alloc_storage`
(`mag_storage_buffer_t` control part): requested size, alignment, and the
vtable entries; `some f` models a non-null function pointer.  The base
address of the freshly allocated block and the owning device are elided. -/
structure StorageDescriptor where
  size : Nat
  alignment : Nat
  set : Option (StorageBuffer → Nat → Nat → Option StorageBuffer)
  cpy_host_device : Option (StorageBuffer → Nat → List Nat → Nat → Option StorageBuffer)
  cpy_device_host : Option (StorageBuffer → Nat → Nat → Option (List Nat))

/-- Storage allocation (`mag_cpu_alloc_storage`): asserts `size` is non-zero
(`none` models the abort), allocates a 16-aligned block and wires the vtable
to the three CPU buffer operations. -/
def mag_cpu_alloc_storage (size : Nat) : Option StorageDescriptor :=
  if size = 0 then none
  else some {
    size := size
    alignment := 16
    set := some mag_cpu_buf_set
    cpy_host_device := some mag_cpu_buf_cpy_host_device
    cpy_device_host := some mag_cpu_buf_cpy_device_host }

/-- Pool creation (`mag_threadpool_create`): phase and completion counters
start at zero, active workers start equal to allocated, worker `i` gets a
cleared payload with `thread_idx = i` and `thread_num = num_workers`, and
every worker but worker 0 is async (worker 0 is the main thread).  The
spawn/online handshake is elided. -/
def mag_threadpool_create (num_workers : Nat) : ThreadpoolState where
  phase := 0
  num_completed := 0
  num_allocated_workers := num_workers
  num_active_workers := num_workers
  workers := (List.range num_workers).map fun ti =>
    { phase := 0
      payload := { node := none, thread_idx := ti, thread_num := num_workers }
      is_async := ti != 0 }

/-- Kickoff (`mag_threadpool_kickoff`), one critical section: store the node
and the active thread count into every allocated worker's payload, set the
active-worker count, increment the global phase and reset the completion
counter. -/
def mag_threadpool_kickoff (s : ThreadpoolState) (node : Tensor)
    (num_active_workers : Nat) : ThreadpoolState :=
  { s with
    num_active_workers := num_active_workers
    workers := s.workers.map fun w =>
      { w with payload := { w.payload with node := some node, thread_num := num_active_workers } }
    phase := s.phase + 1
    num_completed := 0 }

/-- Effect of `mag_worker_await_work` once worker `i` wakes with
`pool->phase > worker->phase` and no interrupt: it records the new phase in
its local counter. -/
def mag_worker_await_work (s : ThreadpoolState) (i : Nat) : ThreadpoolState :=
  match s.workers[i]? with
  | none => s
  | some w => { s with workers := s.workers.set i { w with phase := s.phase } }

/-- Kernel execution on the current thread (`mag_worker_exec_thread_local`):
when a node is pending, run the registered forward kernel and clear the
payload's node.  The kernel's writes go to the node's output storage, outside
this state, so only the consumption of the node is modelled. -/
def mag_worker_exec_thread_local (payload : ComputePayload) : ComputePayload :=
  if payload.node.isSome then { payload with node := none } else payload

/-- Execute-and-signal (`mag_worker_exec_and_broadcast`) for worker `i`:
execute the payload when `thread_idx < num_active_workers`, then, under the
mutex, increment `num_completed` (broadcasting when it reaches
`num_allocated_workers`, which is what lets `mag_threadpool_barrier`
return). -/
def mag_worker_exec_and_broadcast (s : ThreadpoolState) (i : Nat) :
    ThreadpoolState :=
  match s.workers[i]? with
  | none => { s with num_completed := s.num_completed + 1 }
  | some w =>
    let w' :=
      if w.payload.thread_idx < s.num_active_workers then
        { w with payload := mag_worker_exec_thread_local w.payload }
      else w
    { s with
      workers := s.workers.set i w'
      num_completed := s.num_completed + 1 }

/-- One worker's contribution to a kickoff/barrier cycle: an async worker
first passes `mag_worker_await_work` (advancing its local phase) and then
runs `mag_worker_exec_and_broadcast`; worker 0 — the main thread inside
`mag_threadpool_parallel_compute` — calls `mag_worker_exec_and_broadcast`
directly and never updates its local phase. -/
def mag_worker_cycle_step (s : ThreadpoolState) (i : Nat) : ThreadpoolState :=
  match s.workers[i]? with
  | none => s
  | some w =>
    if w.is_async then mag_worker_exec_and_broadcast (mag_worker_await_work s i) i
    else mag_worker_exec_and_broadcast s i

/-- Barrier predicate (`mag_threadpool_barrier`): the caller waits on the
condition variable until every allocated worker has completed the phase; the
call returns exactly when this predicate holds. -/
def mag_threadpool_barrier (s : ThreadpoolState) : Bool :=
  s.num_completed == s.num_allocated_workers

/-- One whole `mag_threadpool_parallel_compute` call as a state transformer:
kickoff, then the per-worker steps in the interleaving order `order`
(worker 0's step is the main thread's inline participation), after which the
barrier predicate is checked.  Any schedule of the mutex-protected sections
yields some such `order` containing each worker index once. -/
def mag_threadpool_parallel_compute (s : ThreadpoolState) (node : Tensor)
    (num_active_workers : Nat) (order : List Nat) : ThreadpoolState :=
  order.foldl mag_worker_cycle_step (mag_threadpool_kickoff s node num_active_workers)

/-- Dispatch decision of `mag_cpu_exec_fwd`: either run the kernel inline on
the calling thread with the given payload, or fan out through
`mag_threadpool_parallel_compute node k` (kickoff, inline worker-0
participation, barrier). -/
inductive ExecDispatch where
  | inline (payload : ComputePayload)
  | parallel (node : Tensor) (num_active_workers : Nat)

/-- Forward execution (`mag_cpu_exec_fwd`): compute the active worker count
from the dynamic width heuristic; with no pool or a width of at most 1, run
the kernel inline with payload `{node, 0, 1}`; otherwise dispatch to the
pool.  `none` propagates the heuristic's undefined result. -/
def mag_cpu_exec_fwd (dvc : CpuDevice) (node : Tensor) : Option ExecDispatch :=
  match mag_cpu_dynamic_work_scaling dvc node.numel with
  | none => none
  | some k =>
    if !dvc.hasPool || k ≤ 1 then
      some (.inline { node := some node, thread_idx := 0, thread_num := 1 })
    else some (.parallel node k)

/-- Backward execution (`mag_cpu_exec_bwd`): unconditionally
`mag_panic("NYI")` — a fatal error before any state is touched, modelled as
`Except.error` with the panic message. -/
def mag_cpu_exec_bwd (dvc : CpuDevice) (root : Tensor) : Except String Unit :=
  .error "NYI"

/-- CPU feature tag (`mag_x86_64_feature_t`), abstract. -/
abbrev X86Feature := Nat

/-- Specialization descriptor (`mag_amd64_blas_specialization`): name and the
required-feature list its `get_feature_permutation` returns (`none` models a
NULL feature pointer; the `0` count case is the empty list).  The installer
`inject_kernels` is identified by the specialization's name. -/
structure BlasSpecialization where
  name : String
  features : Option (List X86Feature)

/-- Which kernel installer ran: a named specialization's `inject_kernels` or
the generic `mag_cpu_blas_specialization_fallback`. -/
inductive InstalledKernels where
  | spec (name : String)
  | fallback

/-- Specialization selector (`mag_amd64_blas_detect_optimal_specialization`):
scan the declared best-to-worst list; skip an entry whose feature list is
missing or empty; on the first entry all of whose required features are in
the context's CPU features, call its installer and return `true`; if none
match, call the generic fallback installer and return `false`.  The first
component is the trace of installer calls made. -/
def mag_amd64_blas_detect_optimal_specialization (ctxFeatures : List X86Feature) :
    List BlasSpecialization → List InstalledKernels × Bool
  | [] => ([.fallback], false)
  | s :: rest =>
    match s.features with
    | none => mag_amd64_blas_detect_optimal_specialization ctxFeatures rest
    | some fs =>
      if fs.isEmpty then mag_amd64_blas_detect_optimal_specialization ctxFeatures rest
      else if fs.all fun f => ctxFeatures.contains f then ([.spec s.name], true)
      else mag_amd64_blas_detect_optimal_specialization ctxFeatures rest

/-- Portable selector entry (`mag_blas_detect_optimal_specialization`): on the
x86-64 build modelled here it delegates to the amd64 selector over the
declared specialization list. -/
def mag_blas_detect_optimal_specialization (ctxFeatures : List X86Feature)
    (specs : List BlasSpecialization) : List InstalledKernels × Bool :=
  mag_amd64_blas_detect_optimal_specialization ctxFeatures specs

/-- A specialization qualifies on a host when its required-feature list is
present, non-empty, and every required feature is among the context's CPU
features.  This is the selection criterion the scan implements. -/
def qualifies (ctxFeatures : List X86Feature) (s : BlasSpecialization) : Bool :=
  match s.features with
  | none => false
  | some fs => !fs.isEmpty && (fs.all fun f => ctxFeatures.contains f)

/-- Selection contract in the spec's words: the installed kernels are those
of the first qualifying specialization in declared order, and the generic
fallback when none qualifies. -/
def select_spec (ctxFeatures : List X86Feature) (specs : List BlasSpecialization) :
    List InstalledKernels × Bool :=
  match specs.find? (qualifies ctxFeatures) with
  | some s => ([.spec s.name], true)
  | none => ([.fallback], false)

/-- C9: for every device and root node, `mag_cpu_exec_bwd` refuses cleanly:
its result is the fatal error with the clear message "NYI" — in particular it
is never `Except.ok`, so it neither silently succeeds nor returns any
modified state. -/
theorem mag_cpu_exec_bwd_refuses (dvc : CpuDevice) (root : Tensor) :
    mag_cpu_exec_bwd dvc root = .error "NYI" := rfl

/-- C10: `mag_cpu_alloc_storage` aborts on size 0, and for every positive
size returns a descriptor whose size equals the request, whose alignment is
16, and whose three vtable entries are non-null. -/
theorem mag_cpu_alloc_storage_contract :
    mag_cpu_alloc_storage 0 = none ∧
    ∀ size : Nat, 0 < size →
      ∃ b, mag_cpu_alloc_storage size = some b ∧ b.size = size ∧
        b.alignment = 16 ∧ b.set.isSome ∧ b.cpy_host_device.isSome ∧
        b.cpy_device_host.isSome := by
  refine ⟨rfl, fun size h => ?_⟩
  have hs : mag_cpu_alloc_storage size = some
      { size := size, alignment := 16, set := some mag_cpu_buf_set,
        cpy_host_device := some mag_cpu_buf_cpy_host_device,
        cpy_device_host := some mag_cpu_buf_cpy_device_host } := by
    simp [mag_cpu_alloc_storage, Nat.pos_iff_ne_zero.mp h]
  exact ⟨_, hs, rfl, rfl, rfl, rfl, rfl⟩

/-- Witness for C10 at the concrete size 64. -/
theorem mag_cpu_alloc_storage_contract_witness :
    0 < 64 ∧ ∃ b, mag_cpu_alloc_storage 64 = some b ∧ b.size = 64 ∧
      b.alignment = 16 ∧ b.set.isSome ∧ b.cpy_host_device.isSome ∧
      b.cpy_device_host.isSome :=
  ⟨by decide, mag_cpu_alloc_storage_contract.2 64 (by decide)⟩

/-- C2: with a pool present and the default threshold 250000, calling the
dynamic width heuristic with `numel` exactly equal to the threshold reaches
the unguarded `log2(0)`; converting the non-finite result to `uint32_t` has
no defined value (`none`), so the code does not guarantee the claimed return
of 1.  One element below the threshold the early return yields 1. -/
theorem mag_cpu_dynamic_work_scaling_threshold_unguarded :
    mag_cpu_dynamic_work_scaling ⟨true, 8, 250000⟩ 250000 = none ∧
    mag_cpu_dynamic_work_scaling ⟨true, 8, 250000⟩ 249999 = some 1 := by
  constructor <;> rfl

/-- C1: concrete kickoff/barrier cycle on a freshly created pool with two
allocated workers and one active worker (schedule: main thread first, then
the async worker).  The barrier returns with `num_completed` equal to the
allocated count 2, but the claimed phase invariant fails: the async worker's
local phase equals the pool phase 1 while worker 0 — the main thread, which
never passes `mag_worker_await_work` — still has local phase 0. -/
theorem mag_threadpool_cycle_phase_divergence :
    mag_threadpool_barrier
      (mag_threadpool_parallel_compute (mag_threadpool_create 2) ⟨0, 500000⟩ 1 [0, 1]) = true ∧
    (mag_threadpool_parallel_compute (mag_threadpool_create 2) ⟨0, 500000⟩ 1 [0, 1]).num_completed = 2 ∧
    (mag_threadpool_parallel_compute (mag_threadpool_create 2) ⟨0, 500000⟩ 1 [0, 1]).num_active_workers = 1 ∧
    (mag_threadpool_parallel_compute (mag_threadpool_create 2) ⟨0, 500000⟩ 1 [0, 1]).phase = 1 ∧
    (mag_threadpool_parallel_compute (mag_threadpool_create 2) ⟨0, 500000⟩ 1 [0, 1]).workers.map
      WorkerState.phase = [0, 1] ∧
    ¬ (∀ w ∈ (mag_threadpool_parallel_compute (mag_threadpool_create 2) ⟨0, 500000⟩ 1 [0, 1]).workers,
        w.phase = (mag_threadpool_parallel_compute (mag_threadpool_create 2) ⟨0, 500000⟩ 1 [0, 1]).phase) := by
  decide

/-- C7: for every context feature set and every declared specialization list,
the selector's result is exactly `select_spec`: the first specialization in
declared order whose required-feature list is present, non-empty and fully
contained in the context's CPU features is installed (with success `true`),
and the generic fallback is installed otherwise; in either case the trace of
installer calls has length one. -/
theorem mag_blas_detect_selects_first_qualifying (ctxFeatures : List X86Feature)
    (specs : List BlasSpecialization) :
    mag_blas_detect_optimal_specialization ctxFeatures specs =
      select_spec ctxFeatures specs ∧
    (mag_blas_detect_optimal_specialization ctxFeatures specs).1.length = 1 := by
  have key : ∀ l : List BlasSpecialization,
      mag_amd64_blas_detect_optimal_specialization ctxFeatures l =
        select_spec ctxFeatures l := by
    intro l
    induction l with
    | nil => rfl
    | cons s rest ih =>
      unfold mag_amd64_blas_detect_optimal_specialization select_spec
      rw [List.find?_cons]
      cases hf : s.features with
      | none =>
        have hq : qualifies ctxFeatures s = false := by simp [qualifies, hf]
        rw [hq]
        exact ih
      | some fs =>
        show (if fs.isEmpty = true then
                mag_amd64_blas_detect_optimal_specialization ctxFeatures rest
              else if (fs.all fun f => ctxFeatures.contains f) = true then
                ([InstalledKernels.spec s.name], true)
              else mag_amd64_blas_detect_optimal_specialization ctxFeatures rest) = _
        by_cases he : fs.isEmpty = true
        · have hq : qualifies ctxFeatures s = false := by simp [qualifies, hf, he]
          rw [hq, if_pos he]
          exact ih
        · rw [if_neg he]
          by_cases ha : (fs.all fun f => ctxFeatures.contains f) = true
          · have hq : qualifies ctxFeatures s = true := by
              simp only [qualifies, hf, ha, Bool.and_true]
              simpa using he
            rw [hq, if_pos ha]
          · have hq : qualifies ctxFeatures s = false := by
              simp only [Bool.not_eq_true] at ha
              simp only [qualifies, hf, ha, Bool.and_false]
            rw [hq, if_neg ha]
            exact ih
  refine ⟨key specs, ?_⟩
  have h1 : mag_blas_detect_optimal_specialization ctxFeatures specs =
      select_spec ctxFeatures specs := key specs
  rw [h1]
  unfold select_spec
  cases specs.find? (qualifies ctxFeatures) <;> rfl

/-- Address sanity of a live allocation: the one-past-the-end address of the
block does not wrap around the `uintptr_t` address space.  Every block a real
allocator returns satisfies this; the storage-op theorems assume it. -/
def validBlock (sto : StorageBuffer) : Prop :=
  sto.base + sto.data.length < ptrWidth

/-- C4: filling a buffer from offset `offs` succeeds whenever
`offs ≤ size`, keeps the size, leaves the bytes below `offs` unchanged and
sets every byte of `[offs, size)` to `x`; the fill length is `size - offs`,
no caller-supplied count exists. -/
theorem mag_cpu_buf_set_fills_suffix (sto : StorageBuffer) (offs x : Nat)
    (hov : validBlock sto) (hoffs : offs ≤ sto.data.length) :
    ∃ sto2, mag_cpu_buf_set sto offs x = some sto2 ∧
      sto2.data.length = sto.data.length ∧
      (∀ i, i < offs → sto2.data[i]? = sto.data[i]?) ∧
      (∀ i, offs ≤ i → i < sto.data.length → sto2.data[i]? = some x) := by
  have hassert : (sto.base + offs) % ptrWidth ≤
      (sto.base + sto.data.length) % ptrWidth := by
    rw [Nat.mod_eq_of_lt (lt_of_le_of_lt (by omega) hov), Nat.mod_eq_of_lt hov]
    omega
  have hset : mag_cpu_buf_set sto offs x = some
      { sto with data := sto.data.take offs ++
          List.replicate (sto.data.length - offs) x } := by
    simp [mag_cpu_buf_set, hassert, hoffs]
  refine ⟨_, hset, ?_, ?_, ?_⟩
  · show (sto.data.take offs ++ List.replicate (sto.data.length - offs) x).length
      = sto.data.length
    rw [List.length_append, List.length_take, List.length_replicate]
    omega
  · intro i hi
    show (sto.data.take offs ++ List.replicate (sto.data.length - offs) x)[i]?
      = sto.data[i]?
    have hlt : i < (sto.data.take offs).length := by
      rw [List.length_take]; omega
    rw [List.getElem?_append, if_pos hlt, List.getElem?_take, if_pos hi]
  · intro i h1 h2
    show (sto.data.take offs ++ List.replicate (sto.data.length - offs) x)[i]?
      = some x
    have hlen : (sto.data.take offs).length = offs := by
      rw [List.length_take]; omega
    rw [List.getElem?_append_right (by omega : (sto.data.take offs).length ≤ i),
      hlen, List.getElem?_replicate, if_pos (by omega)]

/-- Witness for C4: buffer of four bytes `9`, fill from offset 2 with byte
171; the result is computed directly as well. -/
theorem mag_cpu_buf_set_fills_suffix_witness :
    mag_cpu_buf_set ⟨0, [9, 9, 9, 9]⟩ 2 171 = some ⟨0, [9, 9, 171, 171]⟩ ∧
    ∃ sto2, mag_cpu_buf_set ⟨0, [9, 9, 9, 9]⟩ 2 171 = some sto2 ∧
      sto2.data.length = 4 ∧
      (∀ i, i < 2 → sto2.data[i]? = [9, 9, 9, 9][i]?) ∧
      (∀ i, 2 ≤ i → i < 4 → sto2.data[i]? = some 171) := by
  refine ⟨by rfl, ?_⟩
  exact mag_cpu_buf_set_fills_suffix ⟨0, [9, 9, 9, 9]⟩ 2 171
    (by unfold validBlock; decide) (by decide)

/-- C5: copying `n` bytes in at offset `offs` and copying `n` bytes back out
from the same offset returns exactly the source bytes, whenever
`offs + n ≤ size` and the source has length `n`. -/
theorem mag_cpu_buf_cpy_roundtrip (sto : StorageBuffer) (offs n : Nat)
    (src : List Nat) (hov : validBlock sto) (hb : offs + n ≤ sto.data.length)
    (hsrc : src.length = n) :
    ∃ sto2, mag_cpu_buf_cpy_host_device sto offs src n = some sto2 ∧
      mag_cpu_buf_cpy_device_host sto2 offs n = some src := by
  have hassert : (sto.base + offs + n) % ptrWidth ≤
      (sto.base + sto.data.length) % ptrWidth := by
    rw [Nat.mod_eq_of_lt (lt_of_le_of_lt (by omega) hov), Nat.mod_eq_of_lt hov]
    omega
  have htk : src.take n = src := by rw [← hsrc]; exact List.take_length src
  have hin : mag_cpu_buf_cpy_host_device sto offs src n = some
      { sto with data := sto.data.take offs ++ src ++ sto.data.drop (offs + n) } := by
    rw [mag_cpu_buf_cpy_host_device, if_pos hassert, if_pos ⟨hb, hsrc.ge⟩, htk]
  refine ⟨_, hin, ?_⟩
  have hto : (sto.data.take offs).length = offs := by
    rw [List.length_take]; omega
  have hlen2 : (sto.data.take offs ++ src ++ sto.data.drop (offs + n)).length
      = sto.data.length := by
    rw [List.length_append, List.length_append, hto, List.length_drop]
    omega
  have hd2 : ((sto.data.take offs ++ src ++ sto.data.drop (offs + n)).drop offs).take n
      = src := by
    rw [List.append_assoc, List.drop_left' hto, List.take_left' hsrc]
  show mag_cpu_buf_cpy_device_host
    { sto with data := sto.data.take offs ++ src ++ sto.data.drop (offs + n) }
    offs n = some src
  rw [mag_cpu_buf_cpy_device_host]
  rw [show ({ sto with data := sto.data.take offs ++ src ++ sto.data.drop (offs + n) }
      : StorageBuffer).data = sto.data.take offs ++ src ++ sto.data.drop (offs + n) from rfl,
    hlen2, if_pos hassert, if_pos hb, hd2]

/-- Witness for C5: copy the three bytes 4, 5, 6 into a five-byte buffer at
offset 1 and read them back. -/
theorem mag_cpu_buf_cpy_roundtrip_witness :
    ∃ sto2, mag_cpu_buf_cpy_host_device ⟨32, [0, 0, 0, 0, 0]⟩ 1 [4, 5, 6] 3 = some sto2 ∧
      mag_cpu_buf_cpy_device_host sto2 1 3 = some [4, 5, 6] :=
  mag_cpu_buf_cpy_roundtrip ⟨32, [0, 0, 0, 0, 0]⟩ 1 3 [4, 5, 6]
    (by unfold validBlock; decide) (by decide) (by decide)

/-- C6: each storage operation checks its bounds assertion first, and under
the spec's preconditions (`offs ≤ size` for the fill, `offs + n ≤ size` and a
large enough source for the copies) on a live allocation the assertion
failure — and any other abort — is unreachable: all three operations return a
result. -/
theorem mag_cpu_buf_ops_assert_unreachable (sto : StorageBuffer)
    (offs n x : Nat) (src : List Nat) (hov : validBlock sto)
    (h1 : offs ≤ sto.data.length) (h2 : offs + n ≤ sto.data.length)
    (h3 : n ≤ src.length) :
    (mag_cpu_buf_set sto offs x).isSome ∧
    (mag_cpu_buf_cpy_host_device sto offs src n).isSome ∧
    (mag_cpu_buf_cpy_device_host sto offs n).isSome := by
  have ha1 : (sto.base + offs) % ptrWidth ≤
      (sto.base + sto.data.length) % ptrWidth := by
    rw [Nat.mod_eq_of_lt (lt_of_le_of_lt (by omega) hov), Nat.mod_eq_of_lt hov]
    omega
  have ha2 : (sto.base + offs + n) % ptrWidth ≤
      (sto.base + sto.data.length) % ptrWidth := by
    rw [Nat.mod_eq_of_lt (lt_of_le_of_lt (by omega) hov), Nat.mod_eq_of_lt hov]
    omega
  refine ⟨?_, ?_, ?_⟩
  · rw [mag_cpu_buf_set, if_pos ha1, if_pos h1]; rfl
  · rw [mag_cpu_buf_cpy_host_device, if_pos ha2, if_pos ⟨h2, h3⟩]; rfl
  · rw [mag_cpu_buf_cpy_device_host, if_pos ha2, if_pos h2]; rfl

/-- Witness for C6: all three operations succeed on a four-byte buffer with
offset 1 and length 2. -/
theorem mag_cpu_buf_ops_assert_unreachable_witness :
    (mag_cpu_buf_set ⟨8, [1, 2, 3, 4]⟩ 1 9).isSome ∧
    (mag_cpu_buf_cpy_host_device ⟨8, [1, 2, 3, 4]⟩ 1 [7, 7] 2).isSome ∧
    (mag_cpu_buf_cpy_device_host ⟨8, [1, 2, 3, 4]⟩ 1 2).isSome :=
  mag_cpu_buf_ops_assert_unreachable ⟨8, [1, 2, 3, 4]⟩ 1 2 9 [7, 7]
    (by unfold validBlock; decide) (by decide) (by decide) (by decide)

/-- The exact ceiling of the scaled logarithm is monotone. -/
theorem ceil_growth_log2_mono {m m2 : Nat} (h : m ≤ m2) :
    ceil_growth_log2 m ≤ ceil_growth_log2 m2 :=
  Nat.find_mono fun n hn => le_trans (Nat.pow_le_pow_left h 3) hn

/-- C3 as stated is false: with a pool of four allocated workers and the
default threshold, at `numel = 250000` (the threshold itself, which the
claim's range `[1, N]` quantifies over) the heuristic reaches undefined
behaviour and returns no value at all. -/
theorem mag_cpu_dynamic_work_scaling_range_counterexample :
    ¬ ∃ w, mag_cpu_dynamic_work_scaling ⟨true, 4, 250000⟩ 250000 = some w ∧
        1 ≤ w ∧ w ≤ 4 := by
  rintro ⟨w, hw, -⟩
  rw [show mag_cpu_dynamic_work_scaling ⟨true, 4, 250000⟩ 250000 = none from rfl] at hw
  exact Option.noConfusion hw

/-- C3 amended: with at least one allocated worker, the heuristic returns 1
whenever no pool exists or `numel` is below the threshold, and for every
`numel` strictly above the threshold it returns a defined value in
`[1, num_allocated_workers]` that is monotone non-decreasing in `numel`; the
point `numel = threshold` is excluded because there the unguarded logarithm
of zero makes the result undefined. -/
theorem mag_cpu_dynamic_work_scaling_contract (d : CpuDevice)
    (numel numel2 : Int) (hN : 1 ≤ d.num_allocated_workers) :
    (d.hasPool = false ∨ numel < d.numel_threshold →
        mag_cpu_dynamic_work_scaling d numel = some 1) ∧
    (d.hasPool = true → d.numel_threshold < numel →
        ∃ w, mag_cpu_dynamic_work_scaling d numel = some w ∧ 1 ≤ w ∧
          w ≤ d.num_allocated_workers ∧
          (numel ≤ numel2 →
            ∃ w2, mag_cpu_dynamic_work_scaling d numel2 = some w2 ∧ w ≤ w2)) := by
  have heval : ∀ x : Int, d.hasPool = true → d.numel_threshold < x →
      mag_cpu_dynamic_work_scaling d x =
        some (min d.num_allocated_workers
          (max 1 (ceil_growth_log2 (x - d.numel_threshold).toNat))) := by
    intro x hp hx
    rw [mag_cpu_dynamic_work_scaling]
    rw [if_neg, if_neg]
    · omega
    · simp only [hp, Bool.not_true, Bool.false_or, decide_eq_true_eq]
      omega
  constructor
  · intro h
    rw [mag_cpu_dynamic_work_scaling, if_pos]
    rcases h with h | h
    · simp [h]
    · simp [h]
  · intro hp hlt
    refine ⟨_, heval numel hp hlt, ?_, min_le_left _ _, ?_⟩
    · exact le_min hN (le_max_left _ _)
    · intro hle
      refine ⟨_, heval numel2 hp (lt_of_lt_of_le hlt hle), ?_⟩
      have hm : (numel - d.numel_threshold).toNat ≤ (numel2 - d.numel_threshold).toNat := by
        omega
      exact min_le_min (le_refl _)
        (max_le_max (le_refl 1) (ceil_growth_log2_mono hm))

/-- Witness for C3 at a pool with four allocated workers, default threshold:
below the threshold the heuristic gives 1, and just above the threshold it
gives a defined, bounded value that does not decrease one element later. -/
theorem mag_cpu_dynamic_work_scaling_contract_witness :
    mag_cpu_dynamic_work_scaling ⟨true, 4, 250000⟩ 249000 = some 1 ∧
    ∃ w, mag_cpu_dynamic_work_scaling ⟨true, 4, 250000⟩ 250001 = some w ∧
      1 ≤ w ∧ w ≤ 4 ∧
      ∃ w2, mag_cpu_dynamic_work_scaling ⟨true, 4, 250000⟩ 250002 = some w2 ∧
        w ≤ w2 := by
  constructor
  · exact (mag_cpu_dynamic_work_scaling_contract ⟨true, 4, 250000⟩ 249000 0
      (by decide)).1 (Or.inr (by decide))
  · obtain ⟨w, h1, h2, h3, h4⟩ :=
      (mag_cpu_dynamic_work_scaling_contract ⟨true, 4, 250000⟩ 250001 250002
        (by decide)).2 rfl (by decide)
    obtain ⟨w2, h5, h6⟩ := h4 (by decide)
    exact ⟨w, h1, h2, h3, w2, h5, h6⟩

/-- C8: when the heuristic yields `k` for the node's element count, forward
execution with no pool or `k ≤ 1` runs the kernel inline on the calling
thread with payload `{node, thread_idx 0, thread_num 1}`; otherwise it
dispatches the node to the pool with active width `k` (kickoff, inline
worker-0 participation, barrier), and that width never exceeds the allocated
worker count. -/
theorem mag_cpu_exec_fwd_dispatch (d : CpuDevice) (node : Tensor) (k : Nat)
    (hk : mag_cpu_dynamic_work_scaling d node.numel = some k) :
    (d.hasPool = false ∨ k ≤ 1 →
        mag_cpu_exec_fwd d node =
          some (.inline { node := some node, thread_idx := 0, thread_num := 1 })) ∧
    (d.hasPool = true → 2 ≤ k →
        mag_cpu_exec_fwd d node = some (.parallel node k) ∧
        k ≤ d.num_allocated_workers) := by
  constructor
  · intro h
    rw [mag_cpu_exec_fwd, hk]
    show (if (!d.hasPool || decide (k ≤ 1)) = true then
            some (ExecDispatch.inline { node := some node, thread_idx := 0, thread_num := 1 })
          else some (ExecDispatch.parallel node k)) = _
    rw [if_pos]
    rcases h with h | h
    · simp [h]
    · simp [h]
  · intro hp h2
    constructor
    · rw [mag_cpu_exec_fwd, hk]
      show (if (!d.hasPool || decide (k ≤ 1)) = true then
              some (ExecDispatch.inline { node := some node, thread_idx := 0, thread_num := 1 })
            else some (ExecDispatch.parallel node k)) = _
      rw [if_neg]
      simp only [hp, Bool.not_true, Bool.false_or, decide_eq_true_eq]
      omega
    · by_cases hlt : node.numel < d.numel_threshold
      · rw [mag_cpu_dynamic_work_scaling, if_pos (by simp [hlt])] at hk
        have h1 := Option.some.inj hk
        omega
      · by_cases hm0 : node.numel - d.numel_threshold = 0
        · rw [mag_cpu_dynamic_work_scaling, if_neg (by simp [hp, hlt]),
            if_pos hm0] at hk
          exact Option.noConfusion hk
        · rw [mag_cpu_dynamic_work_scaling, if_neg (by simp [hp, hlt]),
            if_neg hm0] at hk
          have h1 := Option.some.inj hk
          rw [← h1]
          exact min_le_left _ _

/-- Witness for C8: a pool-less device runs a small node inline with payload
`{node, 0, 1}`; a pooled device with threshold 0 dispatches an 11-element
node to the pool with width 2, within the 4 allocated workers. -/
theorem mag_cpu_exec_fwd_dispatch_witness :
    mag_cpu_exec_fwd ⟨false, 0, 250000⟩ ⟨7, 1000⟩ =
      some (.inline { node := some ⟨7, 1000⟩, thread_idx := 0, thread_num := 1 }) ∧
    mag_cpu_exec_fwd ⟨true, 4, 0⟩ ⟨3, 11⟩ = some (.parallel ⟨3, 11⟩ 2) ∧
    2 ≤ 4 := by
  have hc : ceil_growth_log2 11 = 2 := by
    rw [ceil_growth_log2, Nat.find_eq_iff]
    exact ⟨by decide, by decide⟩
  have hk : mag_cpu_dynamic_work_scaling ⟨true, 4, 0⟩ 11 = some 2 := by
    rw [mag_cpu_dynamic_work_scaling, if_neg (by decide), if_neg (by decide),
      show ((11 : Int) - 0).toNat = 11 from rfl, hc]
    decide
  obtain ⟨he, hkN⟩ :=
    (mag_cpu_exec_fwd_dispatch ⟨true, 4, 0⟩ ⟨3, 11⟩ 2 hk).2 rfl (by decide)
  exact ⟨(mag_cpu_exec_fwd_dispatch ⟨false, 0, 250000⟩ ⟨7, 1000⟩ 1 rfl).1
    (Or.inl rfl), he, hkN⟩
